import Mathlib

/-
Shallow embedding of the core of the SAI Go engine (a Leela Zero fork):
the neural-network evaluation pipeline (Network.cpp) and the Monte Carlo
search-tree node (UCTNode.cpp).

Machine floating-point values are modelled as exact rationals.  The
transcendental functions the source calls (std::exp, std::log, std::sqrt,
std::pow) are passed to the embedded definitions as function parameters,
so every definition stays computable and the algebraic structure of the
source code is preserved exactly.
-/

/-- BOARD_SIZE as configured at compile time: a 19 x 19 board. -/
def BOARD_SIZE : Nat := 19

/-- NUM_INTERSECTIONS = BOARD_SIZE * BOARD_SIZE. -/
def NUM_INTERSECTIONS : Nat := 361

/-- NUM_SYMMETRIES: the eight dihedral symmetries of the square board;
symmetry 0 (IDENTITY_SYMMETRY) is the identity. -/
def NUM_SYMMETRIES : Nat := 8

/-- Network::get_symmetry on board coordinates (x, y): bit 2 of the
symmetry index swaps the coordinates, bit 1 mirrors x, bit 0 mirrors y. -/
def get_symmetry (p : Nat × Nat) (s : Fin 8) : Nat × Nat :=
  let x0 := if s.val &&& 4 ≠ 0 then p.2 else p.1
  let y0 := if s.val &&& 4 ≠ 0 then p.1 else p.2
  let x1 := if s.val &&& 2 ≠ 0 then BOARD_SIZE - x0 - 1 else x0
  let y1 := if s.val &&& 1 ≠ 0 then BOARD_SIZE - y0 - 1 else y0
  (x1, y1)

/-- The symmetry index table prepared by Network::initialize:
symmetry_nn_idx_table[s][v] = (y2 * BOARD_SIZE) + x2 where
(x2, y2) = get_symmetry((v mod BOARD_SIZE, v div BOARD_SIZE), s). -/
def symmetry_nn_idx_table (s : Fin 8) (v : Fin 361) : Fin 361 :=
  ⟨(get_symmetry (v.val % 19, v.val / 19) s).2 * 19 +
   (get_symmetry (v.val % 19, v.val / 19) s).1, by
    have hv := v.isLt
    have hx : v.val % 19 < 19 := Nat.mod_lt _ (by norm_num)
    have hy : v.val / 19 < 19 := by omega
    have hb : (get_symmetry (v.val % 19, v.val / 19) s).1 < 19 ∧
        (get_symmetry (v.val % 19, v.val / 19) s).2 < 19 := by
      simp only [get_symmetry, BOARD_SIZE]
      constructor <;> split_ifs <;> omega
    omega⟩

/-- Network::Netresult over exact rationals: the policy over the 361
intersections, the pass policy mass, the winrate for the side to move,
and the SAI value-head parameters. -/
@[ext]
structure Netresult where
  policy : Fin 361 → ℚ
  policy_pass : ℚ
  value : ℚ
  alpha : ℚ
  beta : ℚ
  beta2 : ℚ
  is_sai : Bool

/-- Modelled from the spec: the default-constructed Netresult (its
declaration lives in NNCache.h, outside the analysed sources).  All
numeric fields are zero-initialised and is_sai is false; the AVERAGE
ensemble branch of Network::get_output accumulates onto exactly this
zero-initialised record. -/
def Netresult.empty : Netresult :=
  { policy := fun _ => 0
    policy_pass := 0
    value := 0
    alpha := 0
    beta := 0
    beta2 := 0
    is_sai := false }

/-- Modelled from the spec (section 4.2): the NNCache as a mapping from
64-bit board hashes to cached results, with lookup and overwriting
insert.  LRU eviction and capacity are not observable through the claims
considered here and are not modelled. -/
def NNCacheMap := Nat → Option Netresult

/-- NNCache::lookup. -/
def NNCacheMap.lookup (c : NNCacheMap) (h : Nat) : Option Netresult := c h

/-- NNCache::insert: later insertions overwrite earlier ones. -/
def NNCacheMap.insert (c : NNCacheMap) (h : Nat) (r : Netresult) : NNCacheMap :=
  fun h2 => if h2 = h then some r else c h2

/-- sigmoid(alpha, beta, bonus, beta2) from Network.cpp.  A negative
beta2 is replaced by beta; the slope is beta2 on the positive side of
alpha + bonus and beta on the negative side; E is the real exponential
function, passed as a parameter (the source computes exp(-|arg|) when
|arg| > 30 to avoid overflow). -/
def sigmoid (E : ℚ → ℚ) (alpha beta bonus beta2 : ℚ) : ℚ × ℚ :=
  let beta2A := if beta2 < 0 then beta else beta2
  let arg := (if alpha + bonus > 0 then beta2A else beta) * (alpha + bonus)
  let absarg := |arg|
  let ret := if absarg > 30 then E (-absarg) else 1 / (1 + E absarg)
  if arg < 0 then (ret, 1 - ret) else (1 - ret, ret)

/-- Stone colours, as in FastBoard. -/
inductive Color where
  | BLACK
  | WHITE
deriving DecidableEq

/-- Configuration read by Network::probe_cache: the cfg_noise and
cfg_random_cnt self-play settings and the value of
timecontrol.opening_moves(BOARD_SIZE).  Modelled from the spec where the
option declarations (GTP.h) are outside the analysed sources. -/
structure EvalCfg where
  noise : Bool
  random_cnt : Nat
  opening_moves : Nat

/-- What Network::get_output and Network::probe_cache read from a
GameState: the board size, the board hash, the eight symmetry hashes,
the move number, the side to move and the adjusted komi.  Modelled from
the spec for the GameState accessors (GameState.h is outside the
analysed sources). -/
structure EvalState where
  boardsize : Nat
  hash : Nat
  symmetry_hash : Fin 8 → Nat
  movenum : Nat
  to_move : Color
  komi_adj : ℚ

/-- Network::get_sai_winrate: recompute the winrate of a SAI result for
the given state from alpha, beta, beta2 and the adjusted komi (komi for
white to move, -komi for black). -/
def get_sai_winrate (E : ℚ → ℚ) (st : EvalState) (r : Netresult) : Netresult :=
  { r with value :=
      (sigmoid E r.alpha r.beta
        (if st.to_move = Color.WHITE then st.komi_adj else -st.komi_adj) r.beta2).1 }

/-- The condition under which Network::probe_cache probes the seven
symmetric hashes after a miss on the state's own hash: not generating a
self-play game (no noise, no random move count) and the game is within
the first half of the opening-moves window. -/
def probe_sym_cond (cfg : EvalCfg) (st : EvalState) : Bool :=
  !cfg.noise && cfg.random_cnt == 0 && st.movenum < cfg.opening_moves / 2

/-- The symmetric-hash probing loop of Network::probe_cache: try the
symmetries in increasing order, skipping IDENTITY_SYMMETRY (0); on the
first hit return the cached result with its policy rotated back through
symmetry_nn_idx_table. -/
def probe_syms (cache : NNCacheMap) (st : EvalState) : Option Netresult :=
  (List.finRange 8).findSome? fun s =>
    if s = 0 then none
    else
      match cache.lookup (st.symmetry_hash s) with
      | some r => some { r with policy := fun idx => r.policy (symmetry_nn_idx_table s idx) }
      | none => none

/-- Network::probe_cache: look up the state's own hash; on a miss, probe
the symmetric hashes when probe_sym_cond holds; if a result was found
and is a SAI result, recompute its winrate for this state. -/
def probe_cache (E : ℚ → ℚ) (cfg : EvalCfg) (cache : NNCacheMap) (st : EvalState) :
    Option Netresult :=
  let base :=
    match cache.lookup st.hash with
    | some r => some r
    | none => if probe_sym_cond cfg st then probe_syms cache st else none
  match base with
  | some r => some (if r.is_sai then get_sai_winrate E st r else r)
  | none => none

/-- The ensemble modes of Network::get_output.  DIRECT carries its
explicit symmetry; RANDOM_SYMMETRY and AVERAGE are called with
symmetry = -1 in the source. -/
inductive Ensemble where
  | DIRECT (symmetry : Fin 8)
  | RANDOM_SYMMETRY
  | AVERAGE
deriving DecidableEq

/-- One step of the AVERAGE accumulation loop in Network::get_output:
add one eighth of each field of the symmetry result to the accumulator
(NUM_SYMMETRIES = 8); is_sai is overwritten each iteration. -/
def average_step (acc tmp : Netresult) : Netresult :=
  { policy := fun idx => acc.policy idx + tmp.policy idx / 8
    policy_pass := acc.policy_pass + tmp.policy_pass / 8
    value := acc.value + tmp.value / 8
    alpha := acc.alpha + tmp.alpha / 8
    beta := acc.beta + tmp.beta / 8
    beta2 := acc.beta2 + tmp.beta2 / 8
    is_sai := tmp.is_sai }

/-- Network::get_output.  The forward pass under each symmetry
(get_output_internal, which runs the pluggable backend) is the
parameter internal; rand_sym is the symmetry drawn for RANDOM_SYMMETRY;
value_head_not_stm is the ELF flag from the weights file.  Returns the
result together with the cache after the call. -/
def get_output (E : ℚ → ℚ) (internal : Fin 8 → Netresult) (value_head_not_stm : Bool)
    (cfg : EvalCfg) (st : EvalState) (cache : NNCacheMap) (ensemble : Ensemble)
    (rand_sym : Fin 8) (read_cache write_cache : Bool) : Netresult × NNCacheMap :=
  if st.boardsize ≠ BOARD_SIZE then (Netresult.empty, cache)
  else
    match
      if read_cache && ensemble ≠ Ensemble.AVERAGE then probe_cache E cfg cache st
      else none
    with
    | some r => (r, cache)
    | none =>
      let result :=
        match ensemble with
        | Ensemble.DIRECT s => internal s
        | Ensemble.AVERAGE =>
          (List.finRange 8).foldl (fun acc s => average_step acc (internal s)) Netresult.empty
        | Ensemble.RANDOM_SYMMETRY => internal rand_sym
      let result :=
        if value_head_not_stm && st.to_move = Color.WHITE then
          { result with value := 1 - result.value }
        else result
      (result, if write_cache then cache.insert st.hash result else cache)

/-- The arithmetic mean over the eight symmetry evaluations, stated the
way the spec words the AVERAGE ensemble, for comparison with the
AVERAGE branch of get_output. -/
def spec_average (internal : Fin 8 → Netresult) : Netresult :=
  { policy := fun idx => (∑ s : Fin 8, (internal s).policy idx) / 8
    policy_pass := (∑ s : Fin 8, (internal s).policy_pass) / 8
    value := (∑ s : Fin 8, (internal s).value) / 8
    alpha := (∑ s : Fin 8, (internal s).alpha) / 8
    beta := (∑ s : Fin 8, (internal s).beta) / 8
    beta2 := (∑ s : Fin 8, (internal s).beta2) / 8
    is_sai := (internal 7).is_sai }

/-- The claim C1 reading of "the game is past the configurable opening
window": the move number is at or beyond the window of half the
opening moves.  This follows the claim's words, for comparison with
probe_sym_cond, which the code actually tests. -/
def spec_past_opening (cfg : EvalCfg) (st : EvalState) : Prop :=
  cfg.opening_moves / 2 ≤ st.movenum

/-- The feature flags decoded from the first line of the weights file by
Network::load_network_file. -/
structure VersionFlags where
  adv_features : Bool
  chainlibs_features : Bool
  chainsize_features : Bool
  quartile_encoding : Bool
  value_head_not_stm : Bool
deriving DecidableEq

/-- The format-version handling of Network::load_network_file: bits 0-1
must be 1 (LZ) or 2 (ELF) and no bit outside the low nine may be set,
otherwise the file is "the wrong version" (none); on success the feature
flags are bits 4, 6, 7 and 8, and the value head is black-POV (ELF)
exactly for version bits 0-1 equal to 2. -/
def load_version (v : Nat) : Option VersionFlags :=
  if (v &&& 3 ≠ 1 ∧ v &&& 3 ≠ 2) ∨ v - (v &&& 511) ≠ 0 then none
  else some
    { adv_features := v &&& 16 != 0
      chainlibs_features := v &&& 64 != 0
      chainsize_features := v &&& 128 != 0
      quartile_encoding := v &&& 256 != 0
      value_head_not_stm := v &&& 3 == 2 }

/-- A generated move: a board intersection index or the pass move. -/
inductive Move where
  | pass
  | idx (i : Fin 361)
deriving DecidableEq

/-- Sort key corresponding to the vertex component of the (policy,
vertex) pairs create_children sorts: FastBoard::PASS is -1 and the
board vertex encoding is strictly increasing in the intersection
index, so this key is order-isomorphic to the source's vertex ints. -/
def Move.key : Move → Int
  | Move.pass => -1
  | Move.idx i => i.val

/-- UCTNode::ExpandState: the lock-free expansion state machine. -/
inductive ExpandState where
  | INITIAL
  | EXPANDING
  | EXPANDED
deriving DecidableEq

/-- UCTNode over exact rationals: statistics, SAI quantile trackers and
the expansion state.  m_children holds (move, policy-prior) pairs as in
UCTNodePointer. -/
structure UCTNode where
  m_move : Move
  m_policy : ℚ
  m_visits : Nat
  m_blackevals : ℚ
  m_squared_eval_diff : ℚ
  m_pi_sum : ℚ
  m_forced : Nat
  m_net_pi : ℚ
  m_net_alpkt : ℚ
  m_net_beta : ℚ
  m_net_beta2 : ℚ
  m_quantile_lambda : ℚ
  m_quantile_mu : ℚ
  m_quantile_one : ℚ
  m_gp_sum_lambda : ℚ
  m_gxgp_sum_lambda : ℚ
  m_gp_sum_mu : ℚ
  m_gxgp_sum_mu : ℚ
  m_gp_sum_one : ℚ
  m_gxgp_sum_one : ℚ
  m_quantile_updates : Nat
  m_lambda : ℚ
  m_mu : ℚ
  m_min_psa_ratio_children : ℚ
  m_expand_state : ExpandState
  m_children : List (Move × ℚ)
deriving DecidableEq

/-- Modelled from the spec: a fresh node as constructed by
UCTNode::UCTNode(vertex, policy) with the member initialisers of
UCTNode.h (outside the analysed sources): zeroed statistics, expansion
state INITIAL, and m_min_psa_ratio_children = 2 (above 1, so the fresh
node is expandable and has no materialised children). -/
def UCTNode.mk_fresh (move : Move) (policy : ℚ) : UCTNode :=
  { m_move := move, m_policy := policy, m_visits := 0, m_blackevals := 0
    m_squared_eval_diff := 0, m_pi_sum := 0, m_forced := 0
    m_net_pi := 0, m_net_alpkt := 0, m_net_beta := 0, m_net_beta2 := 0
    m_quantile_lambda := 0, m_quantile_mu := 0, m_quantile_one := 0
    m_gp_sum_lambda := 0, m_gxgp_sum_lambda := 0
    m_gp_sum_mu := 0, m_gxgp_sum_mu := 0
    m_gp_sum_one := 0, m_gxgp_sum_one := 0
    m_quantile_updates := 0, m_lambda := 0, m_mu := 0
    m_min_psa_ratio_children := 2
    m_expand_state := ExpandState.INITIAL
    m_children := [] }

/-- What UCTNode::create_children reads from the GameState: the pass
count, side to move, Tromp-Taylor final score (positive for black),
GameState::get_alpkt as a function of the network alpha, whether SAI
plays the cpu colour, per-intersection legality for the side to move,
the symmetry action on intersection indices, and symmetry invariance of
the position.  Modelled from the spec for the accessors whose
declarations (GameState.h, FastBoard.h) are outside the analysed
sources. -/
structure UCTGameState where
  passes : Nat
  to_move : Color
  final_score : ℚ
  alpkt : ℚ → ℚ
  is_cpu_color : Bool
  legal : Fin 361 → Bool
  sym_move : Fin 8 → Fin 361 → Fin 361
  sym_invariant : Fin 8 → Bool

/-- The configuration options UCTNode::create_children and its helpers
read.  Modelled from the spec for the option declarations (GTP.h,
outside the analysed sources).  cfg_policy_temp enters only through the
warm-policy map passed as a function parameter, and cfg_symm_nonrandom
only through the tiebreak values passed as a function parameter. -/
structure UCTCfg where
  dumbpass : Bool
  exploit_symmetries : Bool
  lambda_arr : Fin 4 → ℚ
  mu_arr : Fin 4 → ℚ

/-- The stabiliser subgroup enumerated by create_children: symmetry 0
always, plus every other symmetry when cfg_exploit_symmetries is set
and the position is invariant under it. -/
def stabilizer_subgroup (cfg : UCTCfg) (st : UCTGameState) : List (Fin 8) :=
  (List.finRange 8).filter fun i =>
    i.val == 0 || (cfg.exploit_symmetries && st.sym_invariant i)

/-- One step of the stabiliser fold inside create_children's move loop:
if the symmetric image j of the current intersection is not consumed
yet, mark it consumed, accumulate its policy mass, and make it the
representative when its tiebreak value u j beats the running maximum.
The accumulator is (taken_already, taken_policy, max_u, chosen). -/
def stab_step (raw : Netresult) (u : Fin 361 → ℚ) (st : UCTGameState) (i : Fin 361)
    (acc : (Fin 361 → Bool) × ℚ × ℚ × Fin 361) (sym : Fin 8) :
    (Fin 361 → Bool) × ℚ × ℚ × Fin 361 :=
  match acc with
  | (tk, tp, mx, ch) =>
    let j := st.sym_move sym i
    if tk j then (tk, tp, mx, ch)
    else
      let tk2 := fun k => if k = j then true else tk k
      let tp2 := tp + raw.policy j
      if u j > mx then (tk2, tp2, u j, j) else (tk2, tp2, mx, ch)

/-- One iteration of create_children's loop over the intersections: a
legal, not-yet-consumed intersection folds its stabiliser orbit and
appends (warm(aggregated policy), representative) to the nodelist,
adding the warm policy into legal_sum.  The accumulator is
(taken_already, nodelist, legal_sum). -/
def move_loop_step (cfg : UCTCfg) (st : UCTGameState) (raw : Netresult)
    (warm : ℚ → ℚ) (u : Fin 361 → ℚ)
    (acc : (Fin 361 → Bool) × List (ℚ × Move) × ℚ) (i : Fin 361) :
    (Fin 361 → Bool) × List (ℚ × Move) × ℚ :=
  match acc with
  | (tk, nl, lsum) =>
    if st.legal i && !(tk i) then
      match (stabilizer_subgroup cfg st).foldl (stab_step raw u st i) (tk, 0, 0, i) with
      | (tk2, tp, _, ch) =>
        let wp := warm tp
        (tk2, nl ++ [(wp, Move.idx ch)], lsum + wp)
    else (tk, nl, lsum)

/-- The full move-generation loop of create_children over all 361
intersections, starting from nothing consumed. -/
def board_moves (cfg : UCTCfg) (st : UCTGameState) (raw : Netresult)
    (warm : ℚ → ℚ) (u : Fin 361 → ℚ) :
    (Fin 361 → Bool) × List (ℚ × Move) × ℚ :=
  (List.finRange 361).foldl (move_loop_step cfg st raw warm u) ((fun _ => false), [], 0)

/-- The pass decision of create_children: dumbpass always allows pass;
a nodelist of at most max(5, BOARD_SIZE) board moves allows pass; and
otherwise pass is allowed when the side-to-move winrate exceeds 0.8
and the side to move's relative Tromp-Taylor score is at least 0. -/
def allow_pass (cfg : UCTCfg) (st : UCTGameState) (stm_eval : ℚ) (n_moves : Nat) : Bool :=
  cfg.dumbpass
  || decide (n_moves ≤ max 5 BOARD_SIZE)
  || (decide (stm_eval > 8/10)
      && decide ((if st.to_move = Color.BLACK then (1 : ℚ) else -1) * st.final_score ≥ 0))

/-- The nodelist produced by create_children before renormalisation:
the board moves, followed by a pass entry with prior
warm(policy_pass) when allow_pass holds; paired with legal_sum. -/
def gen_nodelist (cfg : UCTCfg) (st : UCTGameState) (raw : Netresult)
    (warm : ℚ → ℚ) (u : Fin 361 → ℚ) : List (ℚ × Move) × ℚ :=
  match board_moves cfg st raw warm u with
  | (_, nl, lsum) =>
    if allow_pass cfg st raw.value nl.length then
      (nl ++ [(warm raw.policy_pass, Move.pass)], lsum + warm raw.policy_pass)
    else (nl, lsum)

/-- std::numeric_limits of float min: the smallest positive normal
single-precision value, 2^(-126). -/
def flt_min : ℚ := 1 / 2 ^ 126

/-- The renormalisation step of create_children: divide by legal_sum
when it is above the smallest positive float, otherwise fall back to a
uniform distribution over the generated moves. -/
def normalize_nodelist (nl : List (ℚ × Move)) (lsum : ℚ) : List (ℚ × Move) :=
  if lsum > flt_min then nl.map fun p => (p.1 / lsum, p.2)
  else nl.map fun p => (1 / (nl.length : ℚ), p.2)

/-- Lexicographic comparison of (policy, vertex) pairs, as std::pair's
operator< compares the source's (float, int) pairs. -/
def pair_lt (a b : ℚ × Move) : Bool :=
  a.1 < b.1 || (a.1 == b.1 && a.2.key < b.2.key)

/-- Insertion into a descending-sorted list, by pair_lt. -/
def insert_desc (x : ℚ × Move) : List (ℚ × Move) → List (ℚ × Move)
  | [] => [x]
  | y :: ys => if pair_lt x y then y :: insert_desc x ys else x :: y :: ys

/-- Sort descending by (policy, vertex), as create_children's
stable_sort over reverse iterators arranges the nodelist best first
(the pairs are distinct, so stability is immaterial). -/
def sort_desc : List (ℚ × Move) → List (ℚ × Move)
  | [] => []
  | x :: xs => insert_desc x (sort_desc xs)

/-- UCTNode::link_nodelist: an empty nodelist changes nothing;
otherwise sort best-first, keep entries with prior at least
max_psa * min_psa_ratio that were not already materialised (prior below
max_psa * m_min_psa_ratio_children), append them as children, and
record min_psa_ratio (or 0 when nothing was skipped) as the new
materialisation threshold. -/
def link_nodelist (node : UCTNode) (nodelist : List (ℚ × Move)) (min_psa_ratio : ℚ) :
    UCTNode :=
  if nodelist = [] then node
  else
    let sorted := sort_desc nodelist
    let max_psa := (sorted.headD (0, Move.pass)).1
    let old_min_psa := max_psa * node.m_min_psa_ratio_children
    let new_min_psa := max_psa * min_psa_ratio
    let kept := sorted.filter fun p => decide (new_min_psa ≤ p.1) && decide (p.1 < old_min_psa)
    let skipped := sorted.any fun p => decide (p.1 < new_min_psa)
    { node with
      m_children := node.m_children ++ kept.map fun p => (p.2, p.1)
      m_min_psa_ratio_children := if skipped then min_psa_ratio else 0 }

/-- UCTNode::update: increment visits, accumulate the black-perspective
eval, update the Welford variance accumulator, count forced visits and
accumulate the raw network pi.  The eval (possibly bonus-adjusted) and
the raw pi are computed by SearchResult, whose declaration is outside
the analysed sources, and are passed in. -/
def UCTNode.update (node : UCTNode) (eval pi_raw : ℚ) (forced : Bool) : UCTNode :=
  let old_eval := node.m_blackevals
  let old_visits := node.m_visits
  let old_delta := if old_visits > 0 then eval - old_eval / (old_visits : ℚ) else 0
  let new_delta := eval - (old_eval + eval) / ((old_visits : ℚ) + 1)
  { node with
    m_visits := node.m_visits + 1
    m_blackevals := node.m_blackevals + eval
    m_squared_eval_diff := node.m_squared_eval_diff + old_delta * new_delta
    m_forced := if forced then node.m_forced + 1 else node.m_forced
    m_pi_sum := node.m_pi_sum + pi_raw }

/-- UCTNode::get_raw_eval with zero virtual loss: the accumulated
black eval divided by visits, flipped for white. -/
def UCTNode.get_raw_eval (node : UCTNode) (tomove : Color) : ℚ :=
  let eval := node.m_blackevals / (node.m_visits : ℚ)
  if tomove = Color.WHITE then 1 - eval else eval

/-- UCTNode::set_lambda_mu: pick the (lambda, mu) configuration entry
indexed by cpu-colour (0 or 2) plus one when the node's winrate for the
side to move is below one half. -/
def UCTNode.set_lambda_mu (node : UCTNode) (cfg : UCTCfg) (st : UCTGameState) : UCTNode :=
  let i : Fin 4 :=
    if st.is_cpu_color then
      (if node.get_raw_eval st.to_move < 1/2 then 1 else 0)
    else
      (if node.get_raw_eval st.to_move < 1/2 then 3 else 2)
  { node with m_lambda := cfg.lambda_arr i, m_mu := cfg.mu_arr i }

/-- UCTNode::get_avg_pi for black: pi_sum over visits, or one half
before the first visit. -/
def UCTNode.get_avg_pi (node : UCTNode) : ℚ :=
  if node.m_visits > 0 then node.m_pi_sum / (node.m_visits : ℚ) else 1/2

/-- UCTNode::update_gxx_sums: evaluate the sigmoid at the old quantile
as bonus, with slope beta2 on the right side (beta2 positive and
alpkt + quantile positive) and beta otherwise, and accumulate the
g-prime and g - quantile * g-prime terms.  Returns the new
(gxgp_sum, gp_sum). -/
def update_gxx_sums (E : ℚ → ℚ) (gxgp_sum gp_sum old_quantile new_alpkt new_beta
    new_beta2 : ℚ) : ℚ × ℚ :=
  let g := sigmoid E new_alpkt new_beta old_quantile new_beta2
  let right_beta := if new_beta2 > 0 ∧ new_alpkt + old_quantile > 0 then new_beta2
                    else new_beta
  let gp_term := right_beta * g.1 * g.2
  let gxgp_term := g.1 - old_quantile * gp_term
  (gxgp_sum + gxgp_term, gp_sum + gp_term)

/-- UCTNode::update_quantile, over exact rationals with the natural
logarithm passed as the parameter L (the source's std::log1p(-x) is
ln(1-x)).  Returns the new quantile value. -/
def update_quantile (L : ℚ → ℚ) (old_quantile gxgp_sum gp_sum parameter : ℚ)
    (new_visits : Nat) (avg_pi new_alpkt new_beta new_beta2 : ℚ) : ℚ :=
  if |parameter| < 1/100000 then 0
  else if new_visits = 0 then old_quantile
  else
    let avg_p := parameter / 2 + (1 - parameter) * avg_pi
    if new_visits ≤ 8 ∧ old_quantile = 0 then
      (L avg_p - L (1 - avg_p))
        / max (1/100) (if new_beta2 > 0 ∧ avg_p > 1/2 then new_beta2 else new_beta)
        - new_alpkt
    else
      old_quantile +
        (avg_p - (gxgp_sum / (new_visits : ℚ)
                   + old_quantile * (gp_sum / (new_visits : ℚ))))
          / max (1/10) (gp_sum / (new_visits : ℚ))

/-- UCTNode::update_all_quantiles: cache the old quantiles, bump the
update counter, feed the three gxx-sum accumulators, then update the
lambda, mu and one trackers with parameters m_lambda, m_mu and 1. -/
def UCTNode.update_all_quantiles (node : UCTNode) (E L : ℚ → ℚ)
    (new_alpkt new_beta new_beta2 : ℚ) : UCTNode :=
  let avg_pi := node.get_avg_pi
  let old_q_lambda := node.m_quantile_lambda
  let old_q_mu := node.m_quantile_mu
  let old_q_one := node.m_quantile_one
  let new_visits := node.m_quantile_updates + 1
  let sl := update_gxx_sums E node.m_gxgp_sum_lambda node.m_gp_sum_lambda old_q_lambda
    new_alpkt new_beta new_beta2
  let sm := update_gxx_sums E node.m_gxgp_sum_mu node.m_gp_sum_mu old_q_mu
    new_alpkt new_beta new_beta2
  let so := update_gxx_sums E node.m_gxgp_sum_one node.m_gp_sum_one old_q_one
    new_alpkt new_beta new_beta2
  { node with
    m_quantile_updates := new_visits
    m_gxgp_sum_lambda := sl.1
    m_gp_sum_lambda := sl.2
    m_gxgp_sum_mu := sm.1
    m_gp_sum_mu := sm.2
    m_gxgp_sum_one := so.1
    m_gp_sum_one := so.2
    m_quantile_lambda := update_quantile L old_q_lambda sl.1 sl.2 node.m_lambda
      new_visits avg_pi new_alpkt new_beta new_beta2
    m_quantile_mu := update_quantile L old_q_mu sm.1 sm.2 node.m_mu
      new_visits avg_pi new_alpkt new_beta new_beta2
    m_quantile_one := update_quantile L old_q_one so.1 so.2 1
      new_visits avg_pi new_alpkt new_beta new_beta2 }

/-- The outcome of create_children: either the typed halt signal
(NetworkHaltException) was re-raised, or the call returned a boolean. -/
inductive CCOutcome where
  | halted
  | returned (success : Bool)
deriving DecidableEq

/-- UCTNode::create_children.  net_out is the outcome of
network.get_output under RANDOM_SYMMETRY (Except.error models the
NetworkHaltException); value_head_sai is network.m_value_head_sai; warm
is the warm-policy map x to x^(1/cfg_policy_temp); u gives each
intersection's representative tiebreak value (the uniform random draw,
or the deterministic coordinate key under cfg_symm_nonrandom); E and L
are exp and log; update_eval and update_pi are the evaluations
SearchResult (declared outside the analysed sources) derives from
(value, alpkt, beta, beta2) for UCTNode::update.  Returns the outcome
together with the node after the call. -/
def UCTNode.create_children (node : UCTNode) (cfg : UCTCfg) (st : UCTGameState)
    (net_out : Except Unit Netresult) (value_head_sai : Bool)
    (warm : ℚ → ℚ) (u : Fin 361 → ℚ) (E L : ℚ → ℚ) (update_eval update_pi : ℚ)
    (min_psa_ratio : ℚ) : CCOutcome × UCTNode :=
  if st.passes ≥ 2 then (CCOutcome.returned false, node)
  else if node.m_expand_state ≠ ExpandState.INITIAL then (CCOutcome.returned false, node)
  else
    let node1 := { node with m_expand_state := ExpandState.EXPANDING }
    if ¬ (min_psa_ratio < node1.m_min_psa_ratio_children) then
      (CCOutcome.returned false, { node1 with m_expand_state := ExpandState.EXPANDED })
    else
      match net_out with
      | Except.error _ =>
        (CCOutcome.halted, { node1 with m_expand_state := ExpandState.INITIAL })
      | Except.ok raw =>
        let stm_eval := raw.value
        let value := if st.to_move = Color.BLACK then stm_eval else 1 - stm_eval
        let alpkt := if value_head_sai then st.alpkt raw.alpha
                     else if st.to_move = Color.BLACK then raw.alpha else -raw.alpha
        let beta := if value_head_sai then raw.beta else 1
        let beta2 := if value_head_sai then raw.beta2 else 1
        let node2 := { node1 with
          m_net_alpkt := alpkt
          m_net_beta := beta
          m_net_beta2 := beta2
          m_net_pi := value }
        let gen := gen_nodelist cfg st raw warm u
        let node3 := link_nodelist node2 (normalize_nodelist gen.1 gen.2) min_psa_ratio
        let node4 := node3.update update_eval update_pi false
        let node5 := if value_head_sai then
            (node4.set_lambda_mu cfg st).update_all_quantiles E L alpkt beta beta2
          else node4
        (CCOutcome.returned true, { node5 with m_expand_state := ExpandState.EXPANDED })

/-- One conv/BN pair of the weights bundle: the conv biases, the BN
means and the BN variances (one value per channel). -/
structure BNGroup where
  biases : List ℚ
  means : List ℚ
  stddevs : List ℚ
deriving DecidableEq

/-- process_bn_var: replace every variance cell w by
1 / sqrt(w + epsilon) with epsilon = 1e-5; the square root is passed as
the parameter sqrtF. -/
def process_bn_var (sqrtF : ℚ → ℚ) (weights : List ℚ) : List ℚ :=
  weights.map fun w => 1 / sqrtF (w + 1/100000)

/-- The BN-fusion step Network::initialize applies to one conv/BN pair:
subtract the conv bias into the BN mean channelwise, zero the conv
bias, and transform the variances with process_bn_var.  (The source
iterates the channel index over the means; the loaded lengths
coincide.) -/
def fuse_group (sqrtF : ℚ → ℚ) (g : BNGroup) : BNGroup :=
  { biases := (List.zipWith (fun _ _ => (0 : ℚ)) g.means g.biases)
      ++ g.biases.drop g.means.length
    means := List.zipWith (fun m b => m - b) g.means g.biases
    stddevs := process_bn_var sqrtF g.stddevs }

/-- The conv/BN pairs of the loaded network, grouped as
Network::initialize walks them: the input and residual tower convs
(m_conv_biases / m_batchnorm_means / m_batchnorm_stddevs), the value
conv (m_conv_val_b / m_bn_val_w1 / m_bn_val_w2), the value pool conv,
the policy tower convs, and the value-head dense tower. -/
structure NetWeights where
  conv : List BNGroup
  val : BNGroup
  val_pool : BNGroup
  pol : List BNGroup
  vh_dense : List BNGroup
deriving DecidableEq

/-- The BN-fusion phase of Network::initialize: fuse every conv/BN pair
of every section of the weights bundle. -/
def initialize_fusion (sqrtF : ℚ → ℚ) (W : NetWeights) : NetWeights :=
  { conv := W.conv.map (fuse_group sqrtF)
    val := fuse_group sqrtF W.val
    val_pool := fuse_group sqrtF W.val_pool
    pol := W.pol.map (fuse_group sqrtF)
    vh_dense := W.vh_dense.map (fuse_group sqrtF) }

/-- All conv/BN pairs of the bundle in one list, in the order
Network::initialize fuses them. -/
def NetWeights.groups (W : NetWeights) : List BNGroup :=
  W.conv ++ [W.val, W.val_pool] ++ W.pol ++ W.vh_dense

/-- The pass-offer condition exactly as claim C2 words it: the
dumb-pass flag, or FEWER THAN max(5, BOARD_SIZE) legal board moves
remaining, or winrate above 0.8 with the side to move STRICTLY ahead
on the Tromp-Taylor board score.  For comparison with allow_pass,
which the code actually computes. -/
def spec_pass_cond (cfg : UCTCfg) (st : UCTGameState) (stm_eval : ℚ) (n_moves : Nat) :
    Prop :=
  cfg.dumbpass = true ∨ n_moves < max 5 BOARD_SIZE
    ∨ (stm_eval > 8/10
       ∧ (if st.to_move = Color.BLACK then (1 : ℚ) else -1) * st.final_score > 0)

----------------------------------------------------------------------
-- Theorems
----------------------------------------------------------------------

/-- C10: for every state whose board size differs from the compile-time
BOARD_SIZE, get_output returns a default-constructed Netresult
immediately and leaves the cache unchanged, for every ensemble mode,
every read_cache/write_cache combination, every cache content and every
backend behaviour (so no cache lookup, no forward pass and no cache
insertion can be observed). -/
theorem get_output_wrong_boardsize (E : ℚ → ℚ) (internal : Fin 8 → Netresult)
    (vh : Bool) (cfg : EvalCfg) (st : EvalState) (cache : NNCacheMap)
    (ens : Ensemble) (rand : Fin 8) (rc wc : Bool)
    (h : st.boardsize ≠ BOARD_SIZE) :
    get_output E internal vh cfg st cache ens rand rc wc = (Netresult.empty, cache) := by
  unfold get_output
  rw [if_pos h]

/-- Witness for C10 at a concrete input: a 9x9 state. -/
theorem get_output_wrong_boardsize_wit :
    get_output (fun _ => 1) (fun _ => Netresult.empty) false
      ⟨false, 0, 0⟩ ⟨9, 0, fun _ => 0, 0, Color.BLACK, 0⟩ (fun _ => none)
      Ensemble.AVERAGE 0 true true = (Netresult.empty, fun _ => none) :=
  get_output_wrong_boardsize (fun _ => 1) (fun _ => Netresult.empty) false
    ⟨false, 0, 0⟩ ⟨9, 0, fun _ => 0, 0, Color.BLACK, 0⟩ (fun _ => none)
    Ensemble.AVERAGE 0 true true (by decide)

/-- C4: loading a weights file whose first line is the integer v fails
as "wrong version" exactly when bits 0-1 of v are neither 1 nor 2 or
when some bit of v at position at least 9 is set; otherwise loading
proceeds with adv_features = bit 4, chainlibs_features = bit 6,
chainsize_features = bit 7, quartile_encoding = bit 8, and the value
head marked black-POV (ELF) exactly when bits 0-1 equal 2. -/
theorem load_version_spec (v : Nat) :
    (load_version v = none ↔
      ((v % 4 ≠ 1 ∧ v % 4 ≠ 2) ∨ ∃ k, 9 ≤ k ∧ v.testBit k = true))
    ∧ (∀ f, load_version v = some f →
        f.adv_features = v.testBit 4 ∧ f.chainlibs_features = v.testBit 6
        ∧ f.chainsize_features = v.testBit 7 ∧ f.quartile_encoding = v.testBit 8
        ∧ (f.value_head_not_stm = true ↔ v % 4 = 2)) := by
  have hand3 : v &&& 3 = v % 4 := by
    have h := Nat.and_pow_two_sub_one_eq_mod v 2
    norm_num at h
    exact h
  have hand511 : v &&& 511 = v % 512 := by
    have h := Nat.and_pow_two_sub_one_eq_mod v 9
    norm_num at h
    exact h
  have hex : (∃ k, 9 ≤ k ∧ v.testBit k = true) ↔ 512 ≤ v := by
    constructor
    · rintro ⟨k, hk, hb⟩
      by_contra hlt
      push_neg at hlt
      have h2 : v < 2 ^ k := by
        have h9 : (512 : Nat) ≤ 2 ^ k := by
          calc (512 : Nat) = 2 ^ 9 := by norm_num
          _ ≤ 2 ^ k := Nat.pow_le_pow_right (by norm_num) hk
        omega
      rw [Nat.testBit_eq_false_of_lt h2] at hb
      exact Bool.false_ne_true hb
    · intro h
      by_contra hno
      push_neg at hno
      have hall : ∀ k, 9 ≤ k → v.testBit k = false := by
        intro k hk
        simpa using hno k hk
      have hveq : v = v % 512 := by
        apply Nat.eq_of_testBit_eq
        intro i
        rw [show (512 : Nat) = 2 ^ 9 from by norm_num, Nat.testBit_mod_two_pow]
        by_cases hi : i < 9
        · simp [hi]
        · simp [hi, hall i (by omega)]
      have hm : v % 512 < 512 := Nat.mod_lt _ (by norm_num)
      omega
  have hciff : ((v &&& 3 ≠ 1 ∧ v &&& 3 ≠ 2) ∨ v - (v &&& 511) ≠ 0) ↔
      ((v % 4 ≠ 1 ∧ v % 4 ≠ 2) ∨ 512 ≤ v) := by
    rw [hand3, hand511]
    omega
  constructor
  · have hnone : load_version v = none ↔ ((v % 4 ≠ 1 ∧ v % 4 ≠ 2) ∨ 512 ≤ v) := by
      unfold load_version
      split_ifs with hcond
      · exact iff_of_true rfl (hciff.mp hcond)
      · exact iff_of_false (by simp) (fun hD => hcond (hciff.mpr hD))
    exact hnone.trans (or_congr Iff.rfl hex).symm
  · intro f hf
    unfold load_version at hf
    split_ifs at hf with hcond
    · have hrec := Option.some.inj hf
      have h16 : (v &&& 16 != 0) = v.testBit 4 := by
        have h := Nat.and_two_pow v 4
        norm_num at h
        rw [h]
        cases v.testBit 4 <;> simp
      have h64 : (v &&& 64 != 0) = v.testBit 6 := by
        have h := Nat.and_two_pow v 6
        norm_num at h
        rw [h]
        cases v.testBit 6 <;> simp
      have h128 : (v &&& 128 != 0) = v.testBit 7 := by
        have h := Nat.and_two_pow v 7
        norm_num at h
        rw [h]
        cases v.testBit 7 <;> simp
      have h256 : (v &&& 256 != 0) = v.testBit 8 := by
        have h := Nat.and_two_pow v 8
        norm_num at h
        rw [h]
        cases v.testBit 8 <;> simp
      rw [← hrec]
      refine ⟨h16, h64, h128, h256, ?_⟩
      simp only [beq_iff_eq, hand3]

/-- Witness for C4 at the concrete version integer 209 =
128 + 64 + 16 + 1. -/
theorem load_version_spec_wit :
    load_version 209 = some ⟨true, true, true, false, false⟩
    ∧ ((true : Bool) = (209 : Nat).testBit 4 ∧ (true : Bool) = (209 : Nat).testBit 6
       ∧ (true : Bool) = (209 : Nat).testBit 7 ∧ (false : Bool) = (209 : Nat).testBit 8
       ∧ ((false : Bool) = true ↔ (209 : Nat) % 4 = 2)) :=
  ⟨by decide, (load_version_spec 209).2 ⟨true, true, true, false, false⟩ (by decide)⟩

/-- findSome? returns the image of the first element on which the
function fires, when everything before it yields none. -/
theorem findSome_eq_of_prefix_none {α β : Type} (f : α → Option β) :
    ∀ (l1 : List α) (a : α) (l2 : List α) (b : β),
      (∀ x ∈ l1, f x = none) → f a = some b →
      List.findSome? f (l1 ++ a :: l2) = some b := by
  intro l1
  induction l1 with
  | nil =>
    intro a l2 b _ ha
    simp [List.findSome?, ha]
  | cons x xs ih =>
    intro a l2 b hnone ha
    have hx : f x = none := hnone x (by simp)
    simp only [List.cons_append, List.findSome?, hx]
    exact ih a l2 b (fun y hy => hnone y (by simp [hy])) ha

/-- The probing loop of Network::probe_cache returns the rotation of the
first non-identity symmetric hash that hits. -/
theorem probe_syms_first_hit (cache : NNCacheMap) (st : EvalState) (s : Fin 8)
    (r : Netresult) (hs0 : s ≠ 0)
    (hhit : cache.lookup (st.symmetry_hash s) = some r)
    (hprev : ∀ s2 : Fin 8, s2 < s → s2 ≠ 0 → cache.lookup (st.symmetry_hash s2) = none) :
    probe_syms cache st =
      some { r with policy := fun idx => r.policy (symmetry_nn_idx_table s idx) } := by
  unfold probe_syms
  fin_cases s
  · simp at hs0
  · rw [show List.finRange 8 = ([0] ++ (1 : Fin 8) :: [2, 3, 4, 5, 6, 7]) from by decide]
    refine findSome_eq_of_prefix_none _ _ _ _ _ ?_ (by simp_all)
    intro x hx
    fin_cases hx
    · simp
  · rw [show List.finRange 8 = ([0, 1] ++ (2 : Fin 8) :: [3, 4, 5, 6, 7]) from by decide]
    refine findSome_eq_of_prefix_none _ _ _ _ _ ?_ (by simp_all)
    intro x hx
    fin_cases hx
    · simp
    · simp [hprev 1 (by decide) (by decide)]
  · rw [show List.finRange 8 = ([0, 1, 2] ++ (3 : Fin 8) :: [4, 5, 6, 7]) from by decide]
    refine findSome_eq_of_prefix_none _ _ _ _ _ ?_ (by simp_all)
    intro x hx
    fin_cases hx
    · simp
    · simp [hprev 1 (by decide) (by decide)]
    · simp [hprev 2 (by decide) (by decide)]
  · rw [show List.finRange 8 = ([0, 1, 2, 3] ++ (4 : Fin 8) :: [5, 6, 7]) from by decide]
    refine findSome_eq_of_prefix_none _ _ _ _ _ ?_ (by simp_all)
    intro x hx
    fin_cases hx
    · simp
    · simp [hprev 1 (by decide) (by decide)]
    · simp [hprev 2 (by decide) (by decide)]
    · simp [hprev 3 (by decide) (by decide)]
  · rw [show List.finRange 8 = ([0, 1, 2, 3, 4] ++ (5 : Fin 8) :: [6, 7]) from by decide]
    refine findSome_eq_of_prefix_none _ _ _ _ _ ?_ (by simp_all)
    intro x hx
    fin_cases hx
    · simp
    · simp [hprev 1 (by decide) (by decide)]
    · simp [hprev 2 (by decide) (by decide)]
    · simp [hprev 3 (by decide) (by decide)]
    · simp [hprev 4 (by decide) (by decide)]
  · rw [show List.finRange 8 = ([0, 1, 2, 3, 4, 5] ++ (6 : Fin 8) :: [7]) from by decide]
    refine findSome_eq_of_prefix_none _ _ _ _ _ ?_ (by simp_all)
    intro x hx
    fin_cases hx
    · simp
    · simp [hprev 1 (by decide) (by decide)]
    · simp [hprev 2 (by decide) (by decide)]
    · simp [hprev 3 (by decide) (by decide)]
    · simp [hprev 4 (by decide) (by decide)]
    · simp [hprev 5 (by decide) (by decide)]
  · rw [show List.finRange 8 = ([0, 1, 2, 3, 4, 5, 6] ++ (7 : Fin 8) :: []) from by decide]
    refine findSome_eq_of_prefix_none _ _ _ _ _ ?_ (by simp_all)
    intro x hx
    fin_cases hx
    · simp
    · simp [hprev 1 (by decide) (by decide)]
    · simp [hprev 2 (by decide) (by decide)]
    · simp [hprev 3 (by decide) (by decide)]
    · simp [hprev 4 (by decide) (by decide)]
    · simp [hprev 5 (by decide) (by decide)]
    · simp [hprev 6 (by decide) (by decide)]

/-- C1 counterexample: the claim ties the symmetric-hash probing to the
game being PAST the opening window, but the source probes when the game
is WITHIN the first half of the opening window
(movenum < opening_moves / 2).  Concretely, at movenum 0 with an
opening window of 30 moves the game is not past the window, the state's
own hash misses, and probe_cache nevertheless probes the symmetric
hashes and returns the entry cached under symmetry 2's hash. -/
theorem probe_cache_window_cex :
    (NNCacheMap.lookup
        (fun h => if h = 5 then some Netresult.empty else none)
        (⟨19, 1, fun s => if s.val = 2 then 5 else 1000 + s.val, 0,
          Color.BLACK, 0⟩ : EvalState).hash = none)
    ∧ ¬ spec_past_opening ⟨false, 0, 30⟩
        ⟨19, 1, fun s => if s.val = 2 then 5 else 1000 + s.val, 0, Color.BLACK, 0⟩
    ∧ (probe_cache (fun _ => 1) ⟨false, 0, 30⟩
        (fun h => if h = 5 then some Netresult.empty else none)
        ⟨19, 1, fun s => if s.val = 2 then 5 else 1000 + s.val, 0,
          Color.BLACK, 0⟩).isSome = true := by
  refine ⟨rfl, ?_, rfl⟩
  simp [spec_past_opening]

/-- C1 (amended): after a miss on the state's own board hash, the seven
non-identity symmetric hashes are probed exactly when no self-play
randomisation is active and the game is WITHIN the first half of the
configurable opening window (probe_sym_cond); when they are probed and
symmetry s is the first that hits with cached result r, the returned
Netresult is r with its policy rotated back to the caller's
orientation — the entry at index idx comes from the cached policy at
symmetry_nn_idx_table[s][idx] — and, for a SAI result, with the winrate
recomputed for this state's komi. -/
theorem probe_cache_symmetry_ok (E : ℚ → ℚ) (cfg : EvalCfg) (cache : NNCacheMap)
    (st : EvalState) (hmiss : cache.lookup st.hash = none) :
    (probe_sym_cond cfg st = false → probe_cache E cfg cache st = none)
    ∧ (probe_sym_cond cfg st = true →
       ∀ (s : Fin 8) (r : Netresult), s ≠ 0 →
         cache.lookup (st.symmetry_hash s) = some r →
         (∀ s2 : Fin 8, s2 < s → s2 ≠ 0 → cache.lookup (st.symmetry_hash s2) = none) →
         probe_cache E cfg cache st =
           some (if ({ r with policy := fun idx =>
                        r.policy (symmetry_nn_idx_table s idx) } : Netresult).is_sai
                 then get_sai_winrate E st
                   { r with policy := fun idx => r.policy (symmetry_nn_idx_table s idx) }
                 else { r with policy := fun idx =>
                         r.policy (symmetry_nn_idx_table s idx) })) := by
  constructor
  · intro hcond
    unfold probe_cache
    rw [hmiss, hcond]
    simp
  · intro hcond s r hs0 hhit hprev
    unfold probe_cache
    rw [hmiss, hcond]
    simp only [if_true]
    rw [probe_syms_first_hit cache st s r hs0 hhit hprev]

/-- Witness for the amended C1 at a concrete input: an entry cached
under the symmetry-3 hash is found and returned rotated. -/
theorem probe_cache_symmetry_ok_wit :
    probe_cache (fun _ => 1) ⟨false, 0, 40⟩
        (fun h => if h = 7 then some Netresult.empty else none)
        ⟨19, 2, fun s => if s.val = 3 then 7 else 500 + s.val, 4,
          Color.BLACK, 0⟩ =
      some (if ({ Netresult.empty with policy := fun idx =>
                   Netresult.empty.policy (symmetry_nn_idx_table 3 idx) } : Netresult).is_sai
            then get_sai_winrate (fun _ => 1)
                ⟨19, 2, fun s => if s.val = 3 then 7 else 500 + s.val, 4,
                  Color.BLACK, 0⟩
                { Netresult.empty with policy := fun idx =>
                    Netresult.empty.policy (symmetry_nn_idx_table 3 idx) }
            else { Netresult.empty with policy := fun idx =>
                    Netresult.empty.policy (symmetry_nn_idx_table 3 idx) }) :=
  (probe_cache_symmetry_ok (fun _ => 1) ⟨false, 0, 40⟩
      (fun h => if h = 7 then some Netresult.empty else none)
      ⟨19, 2, fun s => if s.val = 3 then 7 else 500 + s.val, 4, Color.BLACK, 0⟩
      rfl).2 rfl 3 Netresult.empty (by decide) rfl
    (by intro s2 hlt hne; fin_cases s2 <;> simp_all <;> rfl)

/-- C3 counterexample: with an ELF network (value head reporting black's
POV) and white to move, the value returned by the AVERAGE ensemble is
1 minus the arithmetic mean of the eight evaluations, not the mean
itself: with every symmetry evaluating to value 1/4, get_output returns
value 3/4 while the mean is 1/4. -/
theorem get_output_average_elf_cex :
    ((get_output (fun _ => 1) (fun _ => { Netresult.empty with value := 1/4 }) true
        ⟨false, 0, 0⟩ ⟨19, 0, fun _ => 0, 0, Color.WHITE, 0⟩ (fun _ => none)
        Ensemble.AVERAGE 0 false false).1).value = 3/4
    ∧ (∑ _s : Fin 8,
        (({ Netresult.empty with value := 1/4 } : Netresult)).value) / 8 = 1/4
    ∧ (3/4 : ℚ) ≠ 1/4 := by
  refine ⟨?_, by norm_num [Netresult.empty, Fin.sum_univ_eight], by norm_num⟩
  norm_num [get_output, average_step, Netresult.empty, BOARD_SIZE,
    show List.finRange 8 = [0, 1, 2, 3, 4, 5, 6, 7] from by decide]

/-- C3 (amended): get_output with ensemble AVERAGE never reads the
cache (the result does not depend on the cache or on read_cache); it
evaluates all 8 symmetries and returns the arithmetic mean of policy
(per intersection), policy_pass, value, alpha, beta and beta2 — except
that for ELF networks (value head reporting black's POV) with white to
move the returned value is 1 minus the mean; when write_cache is true
the returned result is inserted under the state's own board hash,
overwriting any prior entry. -/
theorem get_output_average_ok (E : ℚ → ℚ) (internal : Fin 8 → Netresult)
    (vh : Bool) (cfg : EvalCfg) (st : EvalState) (cache : NNCacheMap)
    (rand : Fin 8) (rc wc : Bool) (hb : st.boardsize = BOARD_SIZE) :
    get_output E internal vh cfg st cache Ensemble.AVERAGE rand rc wc =
      ((if vh && st.to_move = Color.WHITE then
          { spec_average internal with value := 1 - (spec_average internal).value }
        else spec_average internal),
       if wc then
         cache.insert st.hash
           (if vh && st.to_move = Color.WHITE then
             { spec_average internal with value := 1 - (spec_average internal).value }
           else spec_average internal)
       else cache) := by
  have havg :
      (List.finRange 8).foldl (fun acc s => average_step acc (internal s)) Netresult.empty
        = spec_average internal := by
    rw [show List.finRange 8 = [0, 1, 2, 3, 4, 5, 6, 7] from by decide]
    simp only [List.foldl, average_step, Netresult.empty, spec_average]
    refine Netresult.ext ?_ ?_ ?_ ?_ ?_ ?_ rfl <;>
      first
        | (funext idx; simp only [Fin.sum_univ_eight]; ring)
        | (simp only [Fin.sum_univ_eight]; ring)
  unfold get_output
  rw [if_neg (by simp [hb])]
  simp only [ne_eq, not_true_eq_false, decide_False, Bool.and_false, Bool.false_eq_true,
    if_false, havg]

/-- Witness for the amended C3 at a concrete input. -/
theorem get_output_average_ok_wit :
    get_output (fun _ => 1) (fun _ => Netresult.empty) false
      ⟨false, 0, 0⟩ ⟨19, 0, fun _ => 0, 0, Color.BLACK, 0⟩ (fun _ => none)
      Ensemble.AVERAGE 0 true false =
      ((if false && (⟨19, 0, fun _ => 0, 0, Color.BLACK, 0⟩ : EvalState).to_move
            = Color.WHITE then
          { spec_average (fun _ => Netresult.empty) with
            value := 1 - (spec_average (fun _ => Netresult.empty)).value }
        else spec_average (fun _ => Netresult.empty)),
       if false then
         NNCacheMap.insert (fun _ => none) 0
           (if false && (⟨19, 0, fun _ => 0, 0, Color.BLACK, 0⟩ : EvalState).to_move
                = Color.WHITE then
             { spec_average (fun _ => Netresult.empty) with
               value := 1 - (spec_average (fun _ => Netresult.empty)).value }
           else spec_average (fun _ => Netresult.empty))
       else fun _ => none) :=
  get_output_average_ok (fun _ => 1) (fun _ => Netresult.empty) false
    ⟨false, 0, 0⟩ ⟨19, 0, fun _ => 0, 0, Color.BLACK, 0⟩ (fun _ => none)
    0 true false rfl

/-- C8: for every alpha and every beta, with bonus 0 and beta2 left at
its default of -1 (so beta2 is replaced by beta), the first components
of sigmoid(alpha, beta, 0) and sigmoid(-alpha, beta, 0) sum to 1 within
1e-6 (in exact arithmetic the sum is exactly 1), for any exponential
function with E 0 = 1. -/
theorem sigmoid_first_sum_one (E : ℚ → ℚ) (hE : E 0 = 1) (a b : ℚ) :
    |(sigmoid E a b 0 (-1)).1 + (sigmoid E (-a) b 0 (-1)).1 - 1| ≤ 1 / 1000000 := by
  have hneg : (if (-1 : ℚ) < 0 then b else (-1 : ℚ)) = b := if_pos (by norm_num)
  have key : (sigmoid E a b 0 (-1)).1 + (sigmoid E (-a) b 0 (-1)).1 = 1 := by
    simp only [sigmoid, add_zero, hneg, ite_self, mul_neg, abs_neg]
    rcases lt_trichotomy (b * a) 0 with h | h | h
    · rw [if_pos h, if_neg (by linarith : ¬ -(b * a) < 0)]
      dsimp only
      ring
    · rw [h]
      simp only [neg_zero, abs_zero]
      rw [if_neg (lt_irrefl (0 : ℚ))]
      rw [if_neg (by norm_num : ¬ (0 : ℚ) > 30)]
      dsimp only
      rw [hE]
      norm_num
    · rw [if_neg (by linarith : ¬ b * a < 0), if_pos (by linarith : -(b * a) < 0)]
      dsimp only
      ring
  rw [key]
  norm_num

/-- Witness for C8 at a concrete input. -/
theorem sigmoid_first_sum_one_wit :
    |(sigmoid (fun _ => 1) 2 3 0 (-1)).1 + (sigmoid (fun _ => 1) (-2) 3 0 (-1)).1 - 1|
      ≤ 1 / 1000000 :=
  sigmoid_first_sum_one (fun _ => 1) rfl 2 3

/-- C6: for every state in which two or more passes have already
occurred, create_children returns false and changes nothing: the node
is returned with visits, every statistic, the children and the
expansion state unchanged, for every network outcome (the evaluation,
including a possible halt, is never consumed). -/
theorem create_children_two_passes (node : UCTNode) (cfg : UCTCfg) (st : UCTGameState)
    (net_out : Except Unit Netresult) (vhs : Bool) (warm : ℚ → ℚ) (u : Fin 361 → ℚ)
    (E L : ℚ → ℚ) (ue up mpr : ℚ) (h : st.passes ≥ 2) :
    node.create_children cfg st net_out vhs warm u E L ue up mpr
      = (CCOutcome.returned false, node) := by
  unfold UCTNode.create_children
  rw [if_pos h]

/-- Witness for C6 at a concrete input: a fresh node and a state with
two passes. -/
theorem create_children_two_passes_wit :
    (UCTNode.mk_fresh Move.pass 1).create_children
        ⟨false, false, fun _ => 0, fun _ => 0⟩
        ⟨2, Color.BLACK, 0, fun a => a, false, fun _ => false, fun _ i => i, fun _ => false⟩
        (Except.ok Netresult.empty) true id (fun _ => 0) id id 0 0 (1/2)
      = (CCOutcome.returned false, UCTNode.mk_fresh Move.pass 1) :=
  create_children_two_passes _ _ _ _ _ _ _ _ _ _ _ _ (by decide)

/-- C5: if the network evaluation inside create_children raises the
halt signal, create_children restores the expansion state from
EXPANDING back to INITIAL and re-raises; the node comes out exactly as
it went in — no children installed, statistics untouched, and
expandable again (its expansion state is INITIAL and its
materialisation threshold still exceeds min_psa_ratio). -/
theorem create_children_halt (node : UCTNode) (cfg : UCTCfg) (st : UCTGameState)
    (vhs : Bool) (warm : ℚ → ℚ) (u : Fin 361 → ℚ) (E L : ℚ → ℚ) (ue up mpr : ℚ)
    (hp : st.passes < 2) (hs : node.m_expand_state = ExpandState.INITIAL)
    (he : mpr < node.m_min_psa_ratio_children) :
    node.create_children cfg st (Except.error ()) vhs warm u E L ue up mpr
      = (CCOutcome.halted, node) := by
  simp only [UCTNode.create_children]
  rw [if_neg (by omega)]
  rw [if_neg (by simp [hs])]
  rw [if_neg (by simpa using he)]
  rw [← hs]

/-- Witness for C5 at a concrete input: a fresh node, no passes, a
halting evaluation. -/
theorem create_children_halt_wit :
    (UCTNode.mk_fresh Move.pass 1).create_children
        ⟨false, false, fun _ => 0, fun _ => 0⟩
        ⟨0, Color.BLACK, 0, fun a => a, false, fun _ => false, fun _ i => i, fun _ => false⟩
        (Except.error ()) true id (fun _ => 0) id id 0 0 (1/2)
      = (CCOutcome.halted, UCTNode.mk_fresh Move.pass 1) :=
  create_children_halt _ _ _ _ _ _ _ _ _ _ _ (by decide) rfl (by norm_num [UCTNode.mk_fresh])

/-- C2 (amended): in create_children a pass entry is appended to the
move list if and only if the dumb-pass flag is set, or AT MOST
max(5, BOARD_SIZE) board-move entries were generated, or the network's
side-to-move winrate exceeds 0.8 and the side to move is AHEAD OR TIED
on the Tromp-Taylor board score; its prior is warm(policy_pass), the
same warm-policy map applied to the board moves' aggregated policy
(the entry count equals the number of legal board moves whenever the
symmetry-exploitation folding is off). -/
theorem gen_nodelist_pass_iff (cfg : UCTCfg) (st : UCTGameState) (raw : Netresult)
    (warm : ℚ → ℚ) (u : Fin 361 → ℚ) :
    gen_nodelist cfg st raw warm u =
      (if cfg.dumbpass = true
          ∨ (board_moves cfg st raw warm u).2.1.length ≤ max 5 BOARD_SIZE
          ∨ (raw.value > 8/10
             ∧ (if st.to_move = Color.BLACK then (1 : ℚ) else -1) * st.final_score ≥ 0)
       then ((board_moves cfg st raw warm u).2.1 ++ [(warm raw.policy_pass, Move.pass)],
             (board_moves cfg st raw warm u).2.2 + warm raw.policy_pass)
       else ((board_moves cfg st raw warm u).2.1,
             (board_moves cfg st raw warm u).2.2)) := by
  rcases hbm : board_moves cfg st raw warm u with ⟨tk, nl, ls⟩
  unfold gen_nodelist
  rw [hbm]
  dsimp only
  by_cases hc : cfg.dumbpass = true ∨ nl.length ≤ max 5 BOARD_SIZE
      ∨ (raw.value > 8/10
         ∧ (if st.to_move = Color.BLACK then (1 : ℚ) else -1) * st.final_score ≥ 0)
  · have hb : allow_pass cfg st raw.value nl.length = true := by
      simp only [allow_pass, Bool.or_eq_true, Bool.and_eq_true, decide_eq_true_eq]
      rcases hc with h | h | h
      · exact Or.inl (Or.inl h)
      · exact Or.inl (Or.inr h)
      · exact Or.inr h
    rw [if_pos hc, hb]
    simp
  · have hb : allow_pass cfg st raw.value nl.length = false := by
      rw [Bool.eq_false_iff]
      intro h
      apply hc
      simp only [allow_pass, Bool.or_eq_true, Bool.and_eq_true, decide_eq_true_eq] at h
      rcases h with (h | h) | h
      · exact Or.inl h
      · exact Or.inr (Or.inl h)
      · exact Or.inr (Or.inr h)
    rw [if_neg hc, hb]
    simp

set_option maxRecDepth 10000 in
/-- C2 counterexample, in two concrete expansions with the dumb-pass
flag off:
(a) with exactly 19 legal board moves — equal to max(5, BOARD_SIZE) —
and winrate 1/2, the code appends a pass entry (with prior
warm(policy_pass)) although the claim's conditions are all false
("fewer than" 19 moves fails, winrate is not above 0.8);
(b) with 20 legal board moves, winrate 9/10 and a TIED Tromp-Taylor
score, the code appends a pass entry although the claim requires the
side to move to be strictly ahead. -/
theorem gen_nodelist_pass_cex :
    ((gen_nodelist ⟨false, false, fun _ => 0, fun _ => 0⟩
        ⟨0, Color.BLACK, -5, fun a => a, false, fun i => decide (i.val < 19),
          fun _ i => i, fun _ => false⟩
        { Netresult.empty with value := 1/2 } id (fun _ => 0)).1.getLast?
        = some (0, Move.pass))
    ∧ (board_moves ⟨false, false, fun _ => 0, fun _ => 0⟩
        ⟨0, Color.BLACK, -5, fun a => a, false, fun i => decide (i.val < 19),
          fun _ i => i, fun _ => false⟩
        { Netresult.empty with value := 1/2 } id (fun _ => 0)).2.1.length = 19
    ∧ ¬ spec_pass_cond ⟨false, false, fun _ => 0, fun _ => 0⟩
        ⟨0, Color.BLACK, -5, fun a => a, false, fun i => decide (i.val < 19),
          fun _ i => i, fun _ => false⟩ (1/2) 19
    ∧ ((gen_nodelist ⟨false, false, fun _ => 0, fun _ => 0⟩
        ⟨0, Color.BLACK, 0, fun a => a, false, fun i => decide (i.val < 20),
          fun _ i => i, fun _ => false⟩
        { Netresult.empty with value := 9/10 } id (fun _ => 0)).1.getLast?
        = some (0, Move.pass))
    ∧ (board_moves ⟨false, false, fun _ => 0, fun _ => 0⟩
        ⟨0, Color.BLACK, 0, fun a => a, false, fun i => decide (i.val < 20),
          fun _ i => i, fun _ => false⟩
        { Netresult.empty with value := 9/10 } id (fun _ => 0)).2.1.length = 20
    ∧ ¬ spec_pass_cond ⟨false, false, fun _ => 0, fun _ => 0⟩
        ⟨0, Color.BLACK, 0, fun a => a, false, fun i => decide (i.val < 20),
          fun _ i => i, fun _ => false⟩ (9/10) 20 := by
  refine ⟨by decide, by decide, ?_, ?_, by decide, ?_⟩
  · rintro (h | h | ⟨h1, h2⟩)
    · exact absurd h (by decide)
    · simp [BOARD_SIZE] at h
    · norm_num at h1
  · have hlen : (board_moves ⟨false, false, fun _ => 0, fun _ => 0⟩
        ⟨0, Color.BLACK, 0, fun a => a, false, fun i => decide (i.val < 20),
          fun _ i => i, fun _ => false⟩
        { Netresult.empty with value := 9/10 } id (fun _ => 0)).2.1.length = 20 := by
      decide
    unfold gen_nodelist
    rcases hbm : board_moves ⟨false, false, fun _ => 0, fun _ => 0⟩
        ⟨0, Color.BLACK, 0, fun a => a, false, fun i => decide (i.val < 20),
          fun _ i => i, fun _ => false⟩
        { Netresult.empty with value := 9/10 } id (fun _ => 0) with ⟨tk, nl, ls⟩
    rw [hbm] at hlen
    dsimp only
    dsimp only at hlen
    have hap : allow_pass ⟨false, false, fun _ => 0, fun _ => 0⟩
        ⟨0, Color.BLACK, 0, fun a => a, false, fun i => decide (i.val < 20),
          fun _ i => i, fun _ => false⟩
        ({ Netresult.empty with value := 9/10 } : Netresult).value nl.length = true := by
      simp only [allow_pass, Bool.or_eq_true, Bool.and_eq_true, decide_eq_true_eq]
      exact Or.inr ⟨by norm_num, by norm_num⟩
    rw [hap]
    simp only [if_true]
    rw [List.getLast?_concat]
    rfl
  · rintro (h | h | ⟨h1, h2⟩)
    · exact absurd h (by decide)
    · simp [BOARD_SIZE] at h
    · dsimp only at h2
      rw [if_pos rfl] at h2
      norm_num at h2

/-- C9: for every quantile-tracker update with mixing parameter p, with
at least one recorded update (as update_all_quantiles guarantees by
passing the just-incremented counter): if |p| < 1e-5 the quantile is
set to exactly 0; otherwise, with avg_p = p/2 + (1-p)*avg_pi, if the
visit count is at most 8 and the current quantile is 0 the quantile is
initialised to (ln avg_p - ln(1-avg_p)) / max(0.01, beta_right) -
alpkt; and in all other cases the quantile is incremented by
(avg_p - avg_f) / max(0.1, avg_f') where avg_f' = gp_sum/n and
avg_f = gxgp_sum/n + quantile * avg_f'. -/
theorem update_quantile_spec (L : ℚ → ℚ) (oldq gxgp gp p : ℚ) (n : Nat)
    (avg_pi alpkt b b2 : ℚ) (hn : 1 ≤ n) :
    update_quantile L oldq gxgp gp p n avg_pi alpkt b b2 =
      if |p| < 1/100000 then 0
      else if n ≤ 8 ∧ oldq = 0 then
        (L (p/2 + (1-p)*avg_pi) - L (1 - (p/2 + (1-p)*avg_pi)))
          / max (1/100) (if b2 > 0 ∧ p/2 + (1-p)*avg_pi > 1/2 then b2 else b) - alpkt
      else oldq + ((p/2 + (1-p)*avg_pi) - (gxgp/(n:ℚ) + oldq*(gp/(n:ℚ))))
          / max (1/10) (gp/(n:ℚ)) := by
  by_cases hp : |p| < 1/100000
  · simp only [update_quantile]
    rw [if_pos hp, if_pos hp]
  · simp only [update_quantile]
    rw [if_neg hp, if_neg hp, if_neg (by omega : ¬ n = 0)]

/-- Witness for C9 at the concrete bootstrap instance of the claim:
alpha = 3, beta = 1, beta2 = -1, avg_pi = 0.8, lambda = 1, first
update; the quantile is initialised to -3. -/
theorem update_quantile_spec_wit :
    update_quantile id 0 0 0 1 1 (4/5) 3 1 (-1) = -3 := by
  have h := update_quantile_spec id 0 0 0 1 1 (4/5) 3 1 (-1) (by norm_num)
  rw [h]
  norm_num

/-- C7: after Network::initialize's BN fusion, for every conv/BN pair
of the loaded bundle (input/residual convs, value conv, value-pool
conv, policy convs, value-head dense tower) and every channel index j
in range: the stored conv bias is 0, the stored BN mean equals the
pre-fusion mean minus the pre-fusion conv bias, and the stored BN
variance cell equals 1 / sqrt(w_pre + 1e-5) where w_pre is the value
read from the file. -/
theorem initialize_fusion_spec (sqrtF : ℚ → ℚ) (W : NetWeights) (i j : Nat)
    (hi : i < W.groups.length)
    (hj1 : j < (W.groups.getD i ⟨[], [], []⟩).means.length)
    (hj2 : j < (W.groups.getD i ⟨[], [], []⟩).biases.length)
    (hj3 : j < (W.groups.getD i ⟨[], [], []⟩).stddevs.length) :
    ((initialize_fusion sqrtF W).groups.getD i ⟨[], [], []⟩).biases.getD j 1 = 0
    ∧ ((initialize_fusion sqrtF W).groups.getD i ⟨[], [], []⟩).means.getD j 0
        = (W.groups.getD i ⟨[], [], []⟩).means.getD j 0
          - (W.groups.getD i ⟨[], [], []⟩).biases.getD j 0
    ∧ ((initialize_fusion sqrtF W).groups.getD i ⟨[], [], []⟩).stddevs.getD j 0
        = 1 / sqrtF ((W.groups.getD i ⟨[], [], []⟩).stddevs.getD j 0 + 1/100000) := by
  have hcomm : (initialize_fusion sqrtF W).groups = W.groups.map (fuse_group sqrtF) := by
    simp [NetWeights.groups, initialize_fusion]
  rw [hcomm]
  have hmap : (W.groups.map (fuse_group sqrtF)).getD i ⟨[], [], []⟩
      = fuse_group sqrtF (W.groups.getD i ⟨[], [], []⟩) := by
    rw [List.getD_eq_getElem?_getD, List.getD_eq_getElem?_getD, List.getElem?_map,
      List.getElem?_eq_getElem hi]
    rfl
  rw [hmap]
  refine ⟨?_, ?_, ?_⟩
  · show (List.zipWith (fun _ _ => (0 : ℚ))
        (W.groups.getD i ⟨[], [], []⟩).means (W.groups.getD i ⟨[], [], []⟩).biases
      ++ (W.groups.getD i ⟨[], [], []⟩).biases.drop
          (W.groups.getD i ⟨[], [], []⟩).means.length).getD j 1 = 0
    have hz : j < (List.zipWith (fun _ _ => (0 : ℚ))
        (W.groups.getD i ⟨[], [], []⟩).means
        (W.groups.getD i ⟨[], [], []⟩).biases).length := by
      rw [List.length_zipWith]
      omega
    rw [List.getD_eq_getElem?_getD, List.getElem?_append]
    rw [if_pos hz]
    rw [List.getElem?_eq_getElem hz, List.getElem_zipWith]
    rfl
  · show (List.zipWith (fun m b => m - b)
        (W.groups.getD i ⟨[], [], []⟩).means
        (W.groups.getD i ⟨[], [], []⟩).biases).getD j 0
      = (W.groups.getD i ⟨[], [], []⟩).means.getD j 0
        - (W.groups.getD i ⟨[], [], []⟩).biases.getD j 0
    have hz : j < (List.zipWith (fun m b : ℚ => m - b)
        (W.groups.getD i ⟨[], [], []⟩).means
        (W.groups.getD i ⟨[], [], []⟩).biases).length := by
      rw [List.length_zipWith]
      omega
    rw [List.getD_eq_getElem?_getD, List.getElem?_eq_getElem hz, List.getElem_zipWith]
    simp only [Option.getD_some, List.getD_eq_getElem?_getD]
    simp only [List.getD_eq_getElem?_getD] at hj1 hj2
    rw [List.getElem?_eq_getElem (show j < _ from hj1),
      List.getElem?_eq_getElem (show j < _ from hj2)]
    simp only [Option.getD_some]
  · show ((W.groups.getD i ⟨[], [], []⟩).stddevs.map
        fun w => 1 / sqrtF (w + 1/100000)).getD j 0
      = 1 / sqrtF ((W.groups.getD i ⟨[], [], []⟩).stddevs.getD j 0 + 1/100000)
    have hm2 : j < ((W.groups.getD i ⟨[], [], []⟩).stddevs.map
        fun w => 1 / sqrtF (w + 1/100000)).length := by
      rw [List.length_map]
      exact hj3
    rw [List.getD_eq_getElem?_getD, List.getElem?_eq_getElem hm2, List.getElem_map]
    simp only [Option.getD_some, List.getD_eq_getElem?_getD]
    simp only [List.getD_eq_getElem?_getD] at hj3
    rw [List.getElem?_eq_getElem (show j < _ from hj3)]
    simp only [Option.getD_some]

/-- Witness for C7 at a concrete one-conv bundle. -/
theorem initialize_fusion_spec_wit :
    ((initialize_fusion id
        ⟨[⟨[1], [2], [3]⟩], ⟨[1], [1], [1]⟩, ⟨[0], [0], [0]⟩, [], []⟩).groups.getD 0
          ⟨[], [], []⟩).biases.getD 0 1 = 0
    ∧ ((initialize_fusion id
        ⟨[⟨[1], [2], [3]⟩], ⟨[1], [1], [1]⟩, ⟨[0], [0], [0]⟩, [], []⟩).groups.getD 0
          ⟨[], [], []⟩).means.getD 0 0
        = ((⟨[⟨[1], [2], [3]⟩], ⟨[1], [1], [1]⟩, ⟨[0], [0], [0]⟩, [], []⟩ :
            NetWeights).groups.getD 0 ⟨[], [], []⟩).means.getD 0 0
          - ((⟨[⟨[1], [2], [3]⟩], ⟨[1], [1], [1]⟩, ⟨[0], [0], [0]⟩, [], []⟩ :
            NetWeights).groups.getD 0 ⟨[], [], []⟩).biases.getD 0 0
    ∧ ((initialize_fusion id
        ⟨[⟨[1], [2], [3]⟩], ⟨[1], [1], [1]⟩, ⟨[0], [0], [0]⟩, [], []⟩).groups.getD 0
          ⟨[], [], []⟩).stddevs.getD 0 0
        = 1 / id (((⟨[⟨[1], [2], [3]⟩], ⟨[1], [1], [1]⟩, ⟨[0], [0], [0]⟩, [], []⟩ :
            NetWeights).groups.getD 0 ⟨[], [], []⟩).stddevs.getD 0 0 + 1/100000) :=
  initialize_fusion_spec id
    ⟨[⟨[1], [2], [3]⟩], ⟨[1], [1], [1]⟩, ⟨[0], [0], [0]⟩, [], []⟩ 0 0
    (by decide) (by decide) (by decide) (by decide)
